import Mathlib

/-!
Verification development for the Excel merge tool (`excel_merge.py`).

The reconciliation core is embedded shallowly:
a spreadsheet cell is a `Value` (pandas scalars: string, integer,
datetime, boolean, or NaN/absent), a row is a `Record` (an association
list from normalized column name to `Value`, mirroring one row of a
DataFrame with its column set), and the mutable fields of the
`ExcelMerger` object are a `MergerState`.  File loading and saving are
I/O plumbing; the embedding starts from the state `load_data` produces
(keys already computed into the `full_name_key` column, the update
timestamp column already datetime-coerced) and models the pipeline
`handle_duplicates` / `process_updates` / `handle_timestamps` /
`clean_data` / `run`.  A fatal error is an `Except.error`; the output
file is written exactly when `run` returns `Except.ok`.
-/

set_option maxHeartbeats 1000000

namespace ExcelMerge

/-- A pandas scalar value as it appears in a cell after `load_data`:
a string, an integer, a datetime (represented by its ordinal), a
boolean (the temporary `Updated` column), or NaN/None (absent). -/
inductive Value where
  | na : Value
  | str : String → Value
  | intV : Int → Value
  | dateV : Int → Value
  | boolV : Bool → Value
deriving DecidableEq, Repr

/-- Python `pd.isna` on a scalar. -/
def isna : Value → Bool
  | .na => true
  | _ => false

/-- Python scalar equality as pandas evaluates it in this script:
NaN compares unequal to everything, including NaN itself; other
values compare structurally. -/
def valEqB : Value → Value → Bool
  | .na, _ => false
  | _, .na => false
  | a, b => a == b

/-- Python scalar inequality `!=` (so `NaN != x` is `True`). -/
def valNeB (a b : Value) : Bool := !(valEqB a b)

/-- One row of a DataFrame: normalized column name to cell value. -/
abbrev Record := List (String × Value)

/-- Read a cell: a column missing from the row reads as absent
(the script only reads columns it knows exist; `Value.na` is the
inert default). -/
def getCol : Record → String → Value
  | [], _ => .na
  | (c', v') :: rest, c => if c' = c then v' else getCol rest c

/-- Write a cell in place (`df.loc[idx, col] = v`): replace the first
entry for the column, or append the column if it is new. -/
def setCol : Record → String → Value → Record
  | [], c, v => [(c, v)]
  | (c', v') :: rest, c, v =>
      if c' = c then (c, v) :: rest else (c', v') :: setCol rest c v

/-! Field-name constants from `class FieldNames`. -/

def MASTER_FIRSTNAME : String := "etunimi"
def MASTER_LASTNAME : String := "sukunimi"
def MASTER_UPDATED : String := "päivitys pvm"
def MASTER_UPDATED_2 : String := "päivitys pvm2"
def MASTER_ADDRESS : String := "katuosoite"
def MASTER_EMAIL : String := "sähköposti"
def MASTER_PHONE : String := "puhelinnumero"
def MASTER_POSTAL_CODE : String := "postinumero"
def UPDATE_FULLNAME : String := "etu- ja sukunimi"
def UPDATE_TIMESTAMP : String := "completion time"
def UPDATE_ADDRESS : String := "kadunnimi ja numero"
def UPDATE_EMAIL : String := "sähköpostiosoite"
def FULL_NAME_KEY : String := "full_name_key"
def UPDATED_FLAG : String := "Updated"

/-- The table `FieldNames.get_field_mappings()`: update column to master column. -/
def field_mappings : List (String × String) :=
  [(UPDATE_ADDRESS, MASTER_ADDRESS), (UPDATE_EMAIL, MASTER_EMAIL)]

/-! Python string helpers used by the cleanup functions. -/

/-- Python `str.zfill(w)` on the character list: left-pad with zeros
to width `w`, keeping a leading sign in front of the padding. -/
def zfillAux (l : List Char) (w : Nat) : List Char :=
  if w ≤ l.length then l
  else
    match l with
    | [] => List.replicate w '0'
    | c :: rest =>
        if c = '-' ∨ c = '+' then
          c :: (List.replicate (w - (rest.length + 1)) '0' ++ rest)
        else
          List.replicate (w - (rest.length + 1)) '0' ++ (c :: rest)

/-- Python `str.zfill(w)`. -/
def zfill (s : String) (w : Nat) : String := ⟨zfillAux s.data w⟩

/-- Python `str.isdigit()` (ASCII digits). -/
def pyIsDigit (s : String) : Bool := !s.data.isEmpty && s.data.all Char.isDigit

/-- Python `str.title()`: an alphabetic character is uppercased when
the previous character is not alphabetic, lowercased otherwise. -/
def pyTitleGo : List Char → Bool → List Char
  | [], _ => []
  | c :: rest, prevAlpha =>
      if c.isAlpha then
        (if prevAlpha then c.toLower else c.toUpper) :: pyTitleGo rest true
      else c :: pyTitleGo rest false

/-- Python `str.title()`. -/
def pyTitle (s : String) : String := ⟨pyTitleGo s.data false⟩

/-- Python `str.capitalize()`: first character uppercased,
the rest lowercased. -/
def pyCapitalize (s : String) : String :=
  match s.data with
  | [] => ""
  | c :: rest => ⟨c.toUpper :: rest.map Char.toLower⟩

/-- Python `str.strip()`: drop leading and trailing whitespace. -/
def pyStrip (s : String) : String :=
  ⟨((s.data.dropWhile Char.isWhitespace).reverse.dropWhile Char.isWhitespace).reverse⟩

/-- Python `phone.replace('-', '').replace(' ', '')`. -/
def stripDashSpace (s : String) : String :=
  ⟨s.data.filter (fun c => !(c == '-') && !(c == ' '))⟩

/-- Does the first character list lead the second one? -/
def startsWithChars : List Char → List Char → Bool
  | [], _ => true
  | _ :: _, [] => false
  | c :: cs, d :: ds => c == d && startsWithChars cs ds

/-- Python `s.startswith(pre)`. -/
def pyStartsWith (s pre : String) : Bool := startsWithChars pre.data s.data

/-- Python slicing `s[n:]` (by characters). -/
def pyDrop (s : String) (n : Nat) : String := ⟨s.data.drop n⟩

/-! The three static cleanup helpers of `ExcelMerger`. -/

/-- Embeds `ExcelMerger.proper_case`: NaN and non-strings pass through;
strings are stripped and title-cased. -/
def proper_case : Value → Value
  | .str s => .str (pyTitle (pyStrip s))
  | v => v

/-- Embeds `ExcelMerger.normalize_phone`: NaN and non-strings pass through;
strings are stripped, dashes and spaces removed, and a leading
`+358` replaced by `0`. -/
def normalize_phone : Value → Value
  | .str s =>
      let t := stripDashSpace (pyStrip s)
      if pyStartsWith t "+358" then .str ("0" ++ pyDrop t 4) else .str t
  | v => v

/-- Embeds `ExcelMerger.format_postal_code`: NaN passes through; numbers
become `str(int(x)).zfill(5)` (a Python `bool` is an `int`); digit
strings are zero-filled to width 5; other strings pass through;
non-numeric non-string scalars (datetimes) fall through unchanged. -/
def format_postal_code : Value → Value
  | .na => .na
  | .intV n => .str (zfill (toString n) 5)
  | .boolV b => .str (zfill (toString (if b then (1 : Int) else 0)) 5)
  | .str s => if pyIsDigit s then .str (zfill s 5) else .str s
  | .dateV d => .dateV d

/-! The merger state: the mutable attributes of an `ExcelMerger`
object after `load_data` (dataframes held as row lists, the column
index of the master frame, and the derived column sets). -/

/-- One entry of `self.unmatched_entries`. -/
structure Unmatched where
  row : Nat
  name : Value
  key : Value
  timestamp : Value
deriving DecidableEq, Repr

/-- The mutable state of an `ExcelMerger` run after `load_data`. -/
structure MergerState where
  master : List Record
  updates : List Record
  master_cols : List String
  common_columns : List String
  extra_columns : List String
  include_extra_columns : Bool
  updated_rows : Nat
  unmatched : List Unmatched
deriving DecidableEq, Repr

/-- The fatal error of the core: `raise ValueError` for an ambiguous
master key, carrying the offending update row index and its key. -/
inductive MergeError where
  | ambiguousKey (row : Nat) (key : Value)
deriving DecidableEq, Repr

/-- The rows of a dataframe whose `full_name_key` cell equals `k`
under pandas `==` semantics, with their positional indices
(`df[df[key_col] == k]`). -/
def keyMatches (rs : List Record) (k : Value) : List (Nat × Record) :=
  rs.enum.filter (fun p => valEqB (getCol p.2 FULL_NAME_KEY) k)

/-! `handle_duplicates`: collapse update rows sharing a key to the
most recent one. -/

/-- Sort key of a datetime cell: `NaT` is absent. -/
def tsKey : Value → Option Int
  | .dateV d => some d
  | _ => none

/-- Strict "older than" on datetime cells as `sort_values` orders
them descending with `NaT` last: an absent timestamp is older than
every present one. -/
def tsLtB (a b : Value) : Bool :=
  match tsKey a, tsKey b with
  | none, none => false
  | none, some _ => true
  | some _, none => false
  | some x, some y => decide (x < y)

/-- The `completion time` value of an update row. -/
def tsOf (r : Record) : Value := getCol r UPDATE_TIMESTAMP

/-- Keep the strictly newer of two rows.  On equal timestamps this
model resolves toward the earlier row; the source's
`sort_values(ascending=False)` uses pandas' default unstable
quicksort, whose order among tied timestamps is not guaranteed, so
only properties independent of tie order are claimed of the code. -/
def pickNewer (q r : Nat × Record) : Nat × Record :=
  if tsLtB (tsOf q.2) (tsOf r.2) then r else q

/-- Embeds `dupes.sort_values(by=timestamp, ascending=False).iloc[0]`:
a row of the group attaining the maximal timestamp, with `NaT`
sorting as oldest (pandas places `NaT` last in the descending sort).
Which of several timestamp-tied maximal rows comes first is not
specified by the unstable default sort; this model resolves the tie
toward the earliest such row. -/
def keptOf : List (Nat × Record) → Option (Nat × Record)
  | [] => none
  | p :: rest => some (rest.foldl pickNewer p)

/-- Row filter of `handle_duplicates`: a row survives when its key
group has at most one member, or it is the group's kept row. -/
def keepRow (us : List Record) (p : Nat × Record) : Bool :=
  let g := keyMatches us (getCol p.2 FULL_NAME_KEY)
  decide (g.length ≤ 1) || decide (keptOf g = some p)

/-- Embeds `ExcelMerger.handle_duplicates` on the update dataframe: drop
every duplicate-key row except the most recent of its group,
then reset the index. -/
def handle_duplicates (us : List Record) : List Record :=
  ((us.enum.filter (keepRow us)).map Prod.snd)

/-! `process_updates`: the matcher / field-reconciler pass. -/

/-- The special columns skipped by the common-column loop
(`[self.update_name_field, self.update_timestamp_field,
FieldNames.FULL_NAME_KEY]`). -/
def skipCols : List String := [UPDATE_FULLNAME, UPDATE_TIMESTAMP, FULL_NAME_KEY]

/-- Source columns of the explicit mappings. -/
def mappingKeys : List String := field_mappings.map Prod.fst

/-- Target columns of the explicit mappings. -/
def mappingVals : List String := field_mappings.map Prod.snd

/-- One iteration of the explicit field-mapping loop: if the update
column exists, its value is present, and it differs (Python `!=`)
from the master cell, copy it and record the change. -/
def stepMapping (urow : Record) (acc : Record × Bool × List String)
    (p : String × String) : Record × Bool × List String :=
  if p.1 ∈ urow.map Prod.fst then
    let v := getCol urow p.1
    if !(isna v) && valNeB (getCol acc.1 p.2) v then
      (setCol acc.1 p.2 v, true, acc.2.2 ++ [p.2])
    else acc
  else acc

/-- One iteration of the common-column loop: skip special columns and
columns appearing in the explicit mappings, then copy a present,
differing value. -/
def stepCommon (urow : Record) (acc : Record × Bool × List String)
    (c : String) : Record × Bool × List String :=
  if c ∈ skipCols then acc
  else if c ∈ mappingKeys ∨ c ∈ mappingVals then acc
  else
    let v := getCol urow c
    if !(isna v) && valNeB (getCol acc.1 c) v then
      (setCol acc.1 c v, true, acc.2.2 ++ [c])
    else acc

/-- One iteration of the extra-column loop, exactly as the source has
it: a present update value is written unconditionally, and only
afterwards is the master cell tested for absence (so the test reads
the value just written). -/
def stepExtra (urow : Record) (acc : Record × Bool × List String)
    (c : String) : Record × Bool × List String :=
  let v := getCol urow c
  if !(isna v) then
    let m' := setCol acc.1 c v
    if isna (getCol m' c) && acc.2.2.isEmpty then
      (m', true, acc.2.2 ++ [c])
    else (m', acc.2.1, acc.2.2)
  else acc

/-- The per-pair field reconciliation of `process_updates`:
explicit mappings, then common columns, then (when enabled) extra
columns; returns the mutated master row, the `updated` flag, and
the `updated_fields` log. -/
def reconcileRow (st : MergerState) (mrow urow : Record) :
    Record × Bool × List String :=
  let a1 := field_mappings.foldl (stepMapping urow) (mrow, false, [])
  let a2 := st.common_columns.foldl (stepCommon urow) a1
  if st.include_extra_columns then st.extra_columns.foldl (stepExtra urow) a2
  else a2

/-- Dispatch of one update row on its master matches: zero matches
are recorded as unmatched, one match is reconciled (with the
`Updated` flag, timestamp stamp, and row counter applied when the
record was touched), more than one match is the fatal
ambiguous-master-key error. -/
def processMatch (st : MergerState) (i : Nat) (urow : Record) :
    List (Nat × Record) → Except MergeError MergerState
  | [] =>
      .ok { st with unmatched := st.unmatched ++
        [⟨i, getCol urow UPDATE_FULLNAME, getCol urow FULL_NAME_KEY,
          getCol urow UPDATE_TIMESTAMP⟩] }
  | [(j, mrow)] =>
      let res := reconcileRow st mrow urow
      if res.2.1 then
        let ts := getCol urow UPDATE_TIMESTAMP
        let m2 := setCol res.1 UPDATED_FLAG (.boolV true)
        let m3 := if isna ts then m2 else setCol m2 MASTER_UPDATED ts
        .ok { st with master := st.master.set j m3,
                      updated_rows := st.updated_rows + 1 }
      else .ok { st with master := st.master.set j res.1 }
  | _ => .error (.ambiguousKey i (getCol urow FULL_NAME_KEY))

/-- Process one update row (`for i, update_row in
self.update_df.iterrows()` body). -/
def processRow (st : MergerState) (i : Nat) (urow : Record) :
    Except MergeError MergerState :=
  processMatch st i urow (keyMatches st.master (getCol urow FULL_NAME_KEY))

/-- The update loop: thread the state, aborting on the first fatal
error. -/
def processLoop : MergerState → Nat → List Record → Except MergeError MergerState
  | st, _, [] => .ok st
  | st, i, r :: rs =>
      match processRow st i r with
      | .error e => .error e
      | .ok st' => processLoop st' (i + 1) rs

/-- Embeds `self.master_df[FieldNames.UPDATED_FLAG] = False`. -/
def initFlags (master : List Record) : List Record :=
  master.map (fun r => setCol r UPDATED_FLAG (.boolV false))

/-- The state after `self.master_df[FieldNames.UPDATED_FLAG] = False`:
the flag column added to every master row and to the column index. -/
def initState (st : MergerState) : MergerState :=
  { st with master := initFlags st.master,
            master_cols :=
              if UPDATED_FLAG ∈ st.master_cols then st.master_cols
              else st.master_cols ++ [UPDATED_FLAG] }

/-- Embeds `ExcelMerger.process_updates`: initialize the `Updated` column,
then reconcile every update row in order. -/
def process_updates (st : MergerState) : Except MergeError MergerState :=
  processLoop (initState st) 0 st.updates

/-! `handle_timestamps`: back-fill the primary timestamp of untouched
rows from the legacy column. -/

/-- Embeds `pd.to_datetime(x, errors='coerce')` on a cell: datetimes pass
through, everything else (including unparsable scalars) degrades to
`NaT`; date-valued cells are represented as `dateV` throughout. -/
def toDT : Value → Value
  | .dateV d => .dateV d
  | _ => .na

/-- Was the row touched, i.e. is its `Updated` flag `True`
(`~self.master_df[FieldNames.UPDATED_FLAG]` negated)? -/
def isTouched (r : Record) : Bool := getCol r UPDATED_FLAG == .boolV true

/-- The per-row effect of `handle_timestamps`: coerce the primary
timestamp, then (when the legacy column exists) coerce the legacy
timestamp and, for an untouched row whose primary timestamp is
absent, copy the legacy value in; finally coerce the primary
timestamp again. -/
def fixRowTs (hasMU2 : Bool) (r : Record) : Record :=
  let r1 := setCol r MASTER_UPDATED (toDT (getCol r MASTER_UPDATED))
  let r3 :=
    if hasMU2 then
      let r2 := setCol r1 MASTER_UPDATED_2 (toDT (getCol r1 MASTER_UPDATED_2))
      if !(isTouched r2) && isna (getCol r2 MASTER_UPDATED) then
        setCol r2 MASTER_UPDATED (getCol r2 MASTER_UPDATED_2)
      else r2
    else r1
  setCol r3 MASTER_UPDATED (toDT (getCol r3 MASTER_UPDATED))

/-- Embeds `ExcelMerger.handle_timestamps` (column-wise pandas operations,
equivalently applied row by row). -/
def handle_timestamps (st : MergerState) : MergerState :=
  { st with master :=
      st.master.map (fixRowTs (decide (MASTER_UPDATED_2 ∈ st.master_cols))) }

/-! `clean_data`: final cosmetic pass over every master row. -/

/-- The value rewrites of `clean_data` on one row: title-case the
name columns, normalize the phone column and format the postal-code
column when those columns exist. -/
def cleanCells (hasPhone hasPostal : Bool) (r : Record) : Record :=
  let r1 := setCol r MASTER_FIRSTNAME (proper_case (getCol r MASTER_FIRSTNAME))
  let r2 := setCol r1 MASTER_LASTNAME (proper_case (getCol r1 MASTER_LASTNAME))
  let r3 :=
    if hasPhone then setCol r2 MASTER_PHONE (normalize_phone (getCol r2 MASTER_PHONE))
    else r2
  if hasPostal then
    setCol r3 MASTER_POSTAL_CODE (format_postal_code (getCol r3 MASTER_POSTAL_CODE))
  else r3

/-- Drop the listed columns from a row (`df.drop(columns=...)`). -/
def dropColsR (r : Record) (cols : List String) : Record :=
  r.filter (fun p => !(decide (p.1 ∈ cols)))

/-- The columns `clean_data` drops: the legacy timestamp column when
present, the temporary `Updated` flag, and the derived key column. -/
def cleanDropList (st : MergerState) : List String :=
  (if MASTER_UPDATED_2 ∈ st.master_cols then [MASTER_UPDATED_2] else []) ++
    [UPDATED_FLAG, FULL_NAME_KEY]

/-- Embeds `[col.strip().capitalize() for col in columns]` applied to a
row's column names. -/
def renameCaps (r : Record) : Record :=
  r.map (fun p => (pyCapitalize (pyStrip p.1), p.2))

/-- Embeds `ExcelMerger.clean_data`. -/
def clean_data (st : MergerState) : MergerState :=
  let hasPhone := decide (MASTER_PHONE ∈ st.master_cols)
  let hasPostal := decide (MASTER_POSTAL_CODE ∈ st.master_cols)
  let dl := cleanDropList st
  { st with
    master := st.master.map (fun r => renameCaps (dropColsR (cleanCells hasPhone hasPostal r) dl)),
    master_cols :=
      (st.master_cols.filter (fun c => !(decide (c ∈ dl)))).map
        (fun c => pyCapitalize (pyStrip c)) }

/-- The state after `ExcelMerger.handle_duplicates` has collapsed the
update dataframe. -/
def dedupState (st : MergerState) : MergerState :=
  { st with updates := handle_duplicates st.updates }

/-- Embeds `ExcelMerger.run` from the post-`load_data` state: deduplicate,
process updates, fix timestamps, clean, and save.  The merged
dataset is written to disk exactly when this returns `.ok`; a fatal
error unwinds before `save_result` with no output file. -/
def run (st : MergerState) : Except MergeError MergerState :=
  match process_updates (dedupState st) with
  | .error e => .error e
  | .ok st2 => .ok (clean_data (handle_timestamps st2))

/-! ### Concrete states used to exercise the pipeline -/

/-- A master frame holding two records with the same identity key
(the ambiguous-master-key scenario of the spec), with one incoming
update for that key. -/
def stC1 : MergerState :=
  { master := [[(FULL_NAME_KEY, .str "anna korhonen"), (MASTER_ADDRESS, .str "a1")],
               [(FULL_NAME_KEY, .str "anna korhonen"), (MASTER_ADDRESS, .str "a2")]],
    updates := [[(FULL_NAME_KEY, .str "anna korhonen"),
                 (UPDATE_TIMESTAMP, .dateV 3), (UPDATE_ADDRESS, .str "b")]],
    master_cols := [FULL_NAME_KEY, MASTER_ADDRESS],
    common_columns := [], extra_columns := [],
    include_extra_columns := false, updated_rows := 0, unmatched := [] }

/-- A run with extra columns enabled where the master already holds a
present value in the extra column `x` and the update carries a
different present value. -/
def stC2 : MergerState :=
  { master := [[(FULL_NAME_KEY, .str "k"), ("x", .str "old")]],
    updates := [[(FULL_NAME_KEY, .str "k"), ("x", .str "new")]],
    master_cols := [FULL_NAME_KEY, "x"],
    common_columns := [], extra_columns := ["x"],
    include_extra_columns := true, updated_rows := 0, unmatched := [] }

/-- Two update rows with the same key and timestamps 1 < 2. -/
def usC3 : List Record :=
  [[(FULL_NAME_KEY, .str "k"), (UPDATE_TIMESTAMP, .dateV 1), ("z", .str "A")],
   [(FULL_NAME_KEY, .str "k"), (UPDATE_TIMESTAMP, .dateV 2), ("z", .str "B")]]

/-- A master row whose address differs from the incoming update. -/
def mrowC5 : Record := [(FULL_NAME_KEY, .str "k"), (MASTER_ADDRESS, .str "a")]

/-- An update row changing the address, with a present timestamp. -/
def urowC5 : Record :=
  [(FULL_NAME_KEY, .str "k"), (UPDATE_TIMESTAMP, .dateV 5),
   (UPDATE_ADDRESS, .str "b"), (UPDATE_FULLNAME, .str "K")]

/-- State for the touched-record scenario. -/
def stC5 : MergerState :=
  { master := [mrowC5], updates := [urowC5],
    master_cols := [FULL_NAME_KEY, MASTER_ADDRESS],
    common_columns := [], extra_columns := [],
    include_extra_columns := false, updated_rows := 0, unmatched := [] }

/-- An update row whose key matches nothing in `stC6`. -/
def urowC6 : Record :=
  [(FULL_NAME_KEY, .str "erkki virtanen"), (UPDATE_FULLNAME, .str "Erkki Virtanen"),
   (UPDATE_TIMESTAMP, .dateV 9)]

/-- State for the unmatched scenario. -/
def stC6 : MergerState :=
  { master := [[(FULL_NAME_KEY, .str "anna korhonen")]], updates := [urowC6],
    master_cols := [FULL_NAME_KEY],
    common_columns := [], extra_columns := [],
    include_extra_columns := false, updated_rows := 0, unmatched := [] }

/-- A master row agreeing with the incoming update on every mapped
column. -/
def mrowC7 : Record :=
  [(FULL_NAME_KEY, .str "k"), (MASTER_ADDRESS, .str "a"), (MASTER_PHONE, .str "t")]

/-- An update row carrying only values equal to the master's. -/
def urowC7 : Record :=
  [(FULL_NAME_KEY, .str "k"), (UPDATE_TIMESTAMP, .dateV 5),
   (UPDATE_ADDRESS, .str "a"), (MASTER_PHONE, .str "t")]

/-- State for the no-op scenario (`puhelinnumero` is a common
column). -/
def stC7 : MergerState :=
  { master := [mrowC7], updates := [urowC7],
    master_cols := [FULL_NAME_KEY, MASTER_ADDRESS, MASTER_PHONE],
    common_columns := [MASTER_PHONE], extra_columns := [],
    include_extra_columns := false, updated_rows := 0, unmatched := [] }

/-- An untouched master row with an absent primary timestamp and a
present legacy timestamp. -/
def rowC8 : Record :=
  [(UPDATED_FLAG, .boolV false), (MASTER_UPDATED, .na), (MASTER_UPDATED_2, .dateV 7)]

/-- State for the timestamp back-fill scenario. -/
def stC8 : MergerState :=
  { master := [rowC8], updates := [],
    master_cols := [UPDATED_FLAG, MASTER_UPDATED, MASTER_UPDATED_2],
    common_columns := [], extra_columns := [],
    include_extra_columns := false, updated_rows := 0, unmatched := [] }

/-- An untouched master row whose name and phone need cleanup. -/
def rowC10 : Record :=
  [(MASTER_FIRSTNAME, .str "anna"), (MASTER_LASTNAME, .str "korhonen"),
   (MASTER_PHONE, .str "+358 40-1234567"), (UPDATED_FLAG, .boolV false),
   (FULL_NAME_KEY, .str "anna korhonen")]

/-- State for the cleanup scenario. -/
def stC10 : MergerState :=
  { master := [rowC10], updates := [],
    master_cols := [MASTER_FIRSTNAME, MASTER_LASTNAME, MASTER_PHONE,
                    UPDATED_FLAG, FULL_NAME_KEY],
    common_columns := [], extra_columns := [],
    include_extra_columns := false, updated_rows := 0, unmatched := [] }

/-! ### Basic lemmas about record cells -/

theorem getCol_setCol_self (r : Record) (c : String) (v : Value) :
    getCol (setCol r c v) c = v := by
  induction r with
  | nil => simp [setCol, getCol]
  | cons p rest ih =>
      obtain ⟨c', v'⟩ := p
      by_cases h : c' = c
      · simp [setCol, getCol, h]
      · simp [setCol, getCol, h, ih]

theorem getCol_setCol_ne (r : Record) {c c' : String} (v : Value) (h : c ≠ c') :
    getCol (setCol r c v) c' = getCol r c' := by
  induction r with
  | nil => simp [setCol, getCol, h]
  | cons p rest ih =>
      obtain ⟨c₀, v₀⟩ := p
      by_cases h0 : c₀ = c
      · subst h0; simp [setCol, getCol, h]
      · simp only [setCol, if_neg h0]
        by_cases h1 : c₀ = c'
        · simp [getCol, h1]
        · simp [getCol, h1, ih]

theorem setCol_same (r : Record) (c : String) (v : Value)
    (hg : getCol r c = v) (hv : isna v = false) : setCol r c v = r := by
  induction r with
  | nil => simp [getCol] at hg; rw [← hg] at hv; simp [isna] at hv
  | cons p rest ih =>
      obtain ⟨c', v'⟩ := p
      by_cases h : c' = c
      · subst h
        have hg' : v' = v := by simpa [getCol] using hg
        simp [setCol, hg']
      · simp only [getCol, if_neg h] at hg
        simp [setCol, h, ih hg]

theorem zfillAux_length : ∀ (l : List Char) (w : Nat),
    (zfillAux l w).length = max l.length w := by
  intro l w
  unfold zfillAux
  by_cases h : w ≤ l.length
  · simp [h, Nat.max_eq_left h]
  · simp only [if_neg h]
    cases l with
    | nil => simp at h ⊢
    | cons c rest =>
        by_cases hs : c = '-' ∨ c = '+'
        · simp only [if_pos hs, List.length_cons, List.length_append,
            List.length_replicate]
          simp only [List.length_cons] at h
          omega
        · simp only [if_neg hs, List.length_cons, List.length_append,
            List.length_replicate]
          simp only [List.length_cons] at h
          omega

theorem zfill_length (s : String) (w : Nat) :
    (zfill s w).length = max s.length w :=
  zfillAux_length s.data w

theorem toDT_idem (v : Value) : toDT (toDT v) = toDT v := by
  cases v <;> rfl

theorem valEqB_eq {a b : Value} (h : valEqB a b = true) : a = b := by
  cases a <;> cases b <;> simp_all [valEqB]

theorem valEqB_self {v : Value} (h : isna v = false) : valEqB v v = true := by
  cases v <;> simp_all [valEqB, isna]

/-! ### Lemmas about timestamp ordering and the kept duplicate -/

theorem tsLtB_irrefl (a : Value) : tsLtB a a = false := by
  cases h : tsKey a <;> simp [tsLtB, h]

theorem tsLtB_trans {a b c : Value} (h1 : tsLtB a b = true)
    (h2 : tsLtB b c = true) : tsLtB a c = true := by
  cases ha : tsKey a <;> cases hb : tsKey b <;> cases hc : tsKey c <;>
    simp_all [tsLtB] <;> omega

theorem tsGe_trans {a b c : Value} (h1 : tsLtB a b = false)
    (h2 : tsLtB b c = false) : tsLtB a c = false := by
  cases ha : tsKey a <;> cases hb : tsKey b <;> cases hc : tsKey c <;>
    simp_all [tsLtB] <;> omega

theorem tsLtB_asymm {a b : Value} (h : tsLtB a b = true) : tsLtB b a = false := by
  by_contra hab
  rw [Bool.not_eq_false] at hab
  have h2 := tsLtB_trans h hab
  rw [tsLtB_irrefl] at h2
  exact Bool.false_ne_true h2

theorem foldl_pickNewer_mem : ∀ (t : List (Nat × Record)) (c : Nat × Record),
    t.foldl pickNewer c = c ∨ t.foldl pickNewer c ∈ t := by
  intro t
  induction t with
  | nil => intro c; exact Or.inl rfl
  | cons r t ih =>
      intro c
      rcases ih (pickNewer c r) with h | h
      · rw [List.foldl_cons] at *
        rw [h]
        unfold pickNewer
        split
        · exact Or.inr (List.mem_cons_self _ _)
        · exact Or.inl rfl
      · exact Or.inr (List.mem_cons_of_mem _ (by rw [List.foldl_cons]; exact h))

theorem foldl_pickNewer_max : ∀ (t : List (Nat × Record)) (c : Nat × Record),
    tsLtB (tsOf (t.foldl pickNewer c).2) (tsOf c.2) = false ∧
    ∀ r ∈ t, tsLtB (tsOf (t.foldl pickNewer c).2) (tsOf r.2) = false := by
  intro t
  induction t with
  | nil => intro c; exact ⟨tsLtB_irrefl _, by simp⟩
  | cons r t ih =>
      intro c
      obtain ⟨hge, hall⟩ := ih (pickNewer c r)
      have hc : tsLtB (tsOf (pickNewer c r).2) (tsOf c.2) = false := by
        unfold pickNewer
        split
        · next h => exact tsLtB_asymm h
        · exact tsLtB_irrefl _
      have hr : tsLtB (tsOf (pickNewer c r).2) (tsOf r.2) = false := by
        unfold pickNewer
        split
        · exact tsLtB_irrefl _
        · next h => simpa using h
      refine ⟨?_, ?_⟩
      · rw [List.foldl_cons]
        exact tsGe_trans hge hc
      · intro x hx
        rw [List.foldl_cons]
        rcases List.mem_cons.1 hx with h | h
        · subst h; exact tsGe_trans hge hr
        · exact hall x h

theorem keptOf_mem {g : List (Nat × Record)} {q : Nat × Record}
    (h : keptOf g = some q) : q ∈ g := by
  cases g with
  | nil => simp [keptOf] at h
  | cons p rest =>
      simp only [keptOf, Option.some.injEq] at h
      rcases foldl_pickNewer_mem rest p with h' | h'
      · rw [h] at h'; rw [← h']; exact List.mem_cons_self _ _
      · rw [h] at h'; exact List.mem_cons_of_mem _ h'

theorem keptOf_max {g : List (Nat × Record)} {q : Nat × Record}
    (h : keptOf g = some q) : ∀ x ∈ g, tsLtB (tsOf q.2) (tsOf x.2) = false := by
  cases g with
  | nil => simp [keptOf] at h
  | cons p rest =>
      simp only [keptOf, Option.some.injEq] at h
      obtain ⟨hge, hall⟩ := foldl_pickNewer_max rest p
      intro x hx
      rcases List.mem_cons.1 hx with h' | h'
      · subst h'; rw [← h]; exact hge
      · rw [← h]; exact hall x h'

/-! ### The surviving row of a duplicate group -/

theorem enum_nodup {α : Type} (l : List α) : l.enum.Nodup := by
  apply List.Nodup.of_map Prod.fst
  rw [List.enum_map_fst]
  exact List.nodup_range _

theorem filter_eq_singleton {α : Type} [DecidableEq α] :
    ∀ (l : List α) (a : α), l.Nodup → a ∈ l →
      l.filter (fun x => decide (a = x)) = [a] := by
  intro l
  induction l with
  | nil => intro a _ ha; simp at ha
  | cons b t ih =>
      intro a hnd ha
      rw [List.nodup_cons] at hnd
      rcases List.mem_cons.1 ha with h | h
      · subst h
        rw [List.filter_cons_of_pos (by simp)]
        have ht : t.filter (fun x => decide (a = x)) = [] := by
          rw [List.filter_eq_nil_iff]
          intro x hx
          simp only [decide_eq_true_eq]
          intro hax
          exact hnd.1 (hax ▸ hx)
        rw [ht]
      · have hab : a ≠ b := fun hh => hnd.1 (hh ▸ h)
        rw [List.filter_cons_of_neg (by simp [hab])]
        exact ih a hnd.2 h

theorem keyMatches_self {us : List Record} {k : Value} {p : Nat × Record}
    (hp : p ∈ keyMatches us k) :
    keyMatches us (getCol p.2 FULL_NAME_KEY) = keyMatches us k := by
  have h := (List.mem_filter.1 hp).2
  rw [valEqB_eq h]

/-- The rows of the deduplicated update dataset whose key equals `k`
are exactly the kept row of the key-`k` group, once that group has
more than one member. -/
theorem survivors_eq_kept (us : List Record) (k : Value)
    (h2 : 1 < (keyMatches us k).length) (p : Nat × Record)
    (hp : keptOf (keyMatches us k) = some p) :
    (handle_duplicates us).filter
      (fun r => valEqB (getCol r FULL_NAME_KEY) k) = [p.2] := by
  unfold handle_duplicates
  rw [List.filter_map]
  have hswap :
      List.filter ((fun r => valEqB (getCol r FULL_NAME_KEY) k) ∘ Prod.snd)
        (us.enum.filter (keepRow us)) =
      List.filter (keepRow us) (keyMatches us k) := by
    unfold keyMatches
    rw [List.filter_filter, List.filter_filter]
    apply List.filter_congr
    intro x _
    exact Bool.and_comm _ _
  rw [hswap]
  have hcongr : List.filter (keepRow us) (keyMatches us k) =
      List.filter (fun x => decide (p = x)) (keyMatches us k) := by
    apply List.filter_congr
    intro x hx
    unfold keepRow
    rw [keyMatches_self hx]
    show (decide ((keyMatches us k).length ≤ 1) ||
        decide (keptOf (keyMatches us k) = some x)) = decide (p = x)
    have hlen : decide ((keyMatches us k).length ≤ 1) = false := by
      simp only [decide_eq_false_iff_not]
      omega
    rw [hlen, hp]
    simp
  rw [hcongr]
  have hnd : (keyMatches us k).Nodup :=
    List.Nodup.filter _ (enum_nodup us)
  rw [filter_eq_singleton _ p hnd (keptOf_mem hp)]
  rfl

/-! ### Positional lemmas -/

theorem set_of_getElem? {α : Type} : ∀ (l : List α) (j : Nat) (a : α),
    l[j]? = some a → l.set j a = l := by
  intro l
  induction l with
  | nil => intro j a h; simp at h
  | cons b t ih =>
      intro j a h
      cases j with
      | zero =>
          simp only [List.getElem?_cons_zero, Option.some.injEq] at h
          rw [← h]
          rfl
      | succ n =>
          simp only [List.getElem?_cons_succ] at h
          simp [List.set, ih n a h]

theorem getElem?_of_keyMatches {master : List Record} {k : Value}
    {j : Nat} {mrow : Record}
    (hm : keyMatches master k = [(j, mrow)]) : master[j]? = some mrow := by
  have hmem : (j, mrow) ∈ keyMatches master k := by
    rw [hm]; exact List.mem_cons_self _ _
  have henum : (j, mrow) ∈ master.enum := List.mem_of_mem_filter hmem
  exact List.mem_enum_iff_getElem?.1 henum

/-! ### No-op lemmas for the reconciliation of equal values -/

theorem foldl_stepMapping_noop (urow mrow : Record) :
    ∀ ms : List (String × String),
    (∀ p ∈ ms, isna (getCol urow p.1) = false → getCol mrow p.2 = getCol urow p.1) →
    ms.foldl (stepMapping urow) (mrow, false, []) = (mrow, false, []) := by
  intro ms
  induction ms with
  | nil => intro _; rfl
  | cons p ms ih =>
      intro h
      rw [List.foldl_cons]
      have hstep : stepMapping urow (mrow, false, []) p = (mrow, false, []) := by
        unfold stepMapping
        by_cases h1 : p.1 ∈ urow.map Prod.fst
        · simp only [if_pos h1]
          by_cases h2 : isna (getCol urow p.1) = true
          · simp [h2]
          · have h2' : isna (getCol urow p.1) = false := by
              simpa using h2
            have heq := h p (List.mem_cons_self _ _) h2'
            simp [heq, valNeB, valEqB_self h2']
        · simp [h1]
      rw [hstep]
      exact ih (fun q hq => h q (List.mem_cons_of_mem _ hq))

theorem foldl_stepCommon_noop (urow mrow : Record) :
    ∀ cols : List String,
    (∀ c ∈ cols, isna (getCol urow c) = false → getCol mrow c = getCol urow c) →
    cols.foldl (stepCommon urow) (mrow, false, []) = (mrow, false, []) := by
  intro cols
  induction cols with
  | nil => intro _; rfl
  | cons c cols ih =>
      intro h
      rw [List.foldl_cons]
      have hstep : stepCommon urow (mrow, false, []) c = (mrow, false, []) := by
        unfold stepCommon
        by_cases hs : c ∈ skipCols
        · simp [hs]
        · by_cases hmp : c ∈ mappingKeys ∨ c ∈ mappingVals
          · simp [hs, hmp]
          · simp only [if_neg hs, if_neg hmp]
            by_cases h2 : isna (getCol urow c) = true
            · simp [h2]
            · have h2' : isna (getCol urow c) = false := by simpa using h2
              have heq := h c (List.mem_cons_self _ _) h2'
              simp [heq, valNeB, valEqB_self h2']
      rw [hstep]
      exact ih (fun q hq => h q (List.mem_cons_of_mem _ hq))

theorem foldl_stepExtra_noop (urow mrow : Record) :
    ∀ cols : List String,
    (∀ c ∈ cols, isna (getCol urow c) = false → getCol mrow c = getCol urow c) →
    cols.foldl (stepExtra urow) (mrow, false, []) = (mrow, false, []) := by
  intro cols
  induction cols with
  | nil => intro _; rfl
  | cons c cols ih =>
      intro h
      rw [List.foldl_cons]
      have hstep : stepExtra urow (mrow, false, []) c = (mrow, false, []) := by
        by_cases h2 : isna (getCol urow c) = true
        · simp [stepExtra, h2]
        · have h2' : isna (getCol urow c) = false := by simpa using h2
          have hsame : setCol mrow c (getCol urow c) = mrow :=
            setCol_same mrow c _ (h c (List.mem_cons_self _ _) h2') h2'
          have hg2 : isna (getCol (setCol mrow c (getCol urow c)) c) = false := by
            rw [getCol_setCol_self]; exact h2'
          simp only [stepExtra]
          simp only [h2', Bool.not_false, if_true, hg2, Bool.false_and]
          simp [hsame]
      rw [hstep]
      exact ih (fun q hq => h q (List.mem_cons_of_mem _ hq))

theorem reconcileRow_noop (st : MergerState) (mrow urow : Record)
    (h1 : ∀ p ∈ field_mappings,
      isna (getCol urow p.1) = false → getCol mrow p.2 = getCol urow p.1)
    (h2 : ∀ c ∈ st.common_columns,
      isna (getCol urow c) = false → getCol mrow c = getCol urow c)
    (h3 : ∀ c ∈ st.extra_columns,
      isna (getCol urow c) = false → getCol mrow c = getCol urow c) :
    reconcileRow st mrow urow = (mrow, false, []) := by
  simp only [reconcileRow]
  rw [foldl_stepMapping_noop urow mrow field_mappings h1,
      foldl_stepCommon_noop urow mrow st.common_columns h2]
  by_cases hic : st.include_extra_columns
  · simp [hic, foldl_stepExtra_noop urow mrow st.extra_columns h3]
  · simp [hic]

/-! ### The claims -/

/-- Claim C3: for every group of update records sharing the same
identity key, after deduplication exactly the kept record of the
group survives in the working dataset, and its timestamp is maximal
in the group with an absent timestamp counting as oldest; in
particular, of two records with timestamps T1 < T2 only the T2
record survives. -/
theorem C3_latest_wins (us : List Record) (k : Value)
    (h2 : 1 < (keyMatches us k).length) :
    ∃ p, keptOf (keyMatches us k) = some p ∧
      (handle_duplicates us).filter
        (fun r => valEqB (getCol r FULL_NAME_KEY) k) = [p.2] ∧
      ∀ q ∈ keyMatches us k, tsLtB (tsOf p.2) (tsOf q.2) = false := by
  obtain ⟨p, rest, hg⟩ : ∃ p rest, keyMatches us k = p :: rest := by
    cases hgg : keyMatches us k with
    | nil => rw [hgg] at h2; simp at h2
    | cons a t => exact ⟨a, t, rfl⟩
  have hp0 : keptOf (keyMatches us k) = some (rest.foldl pickNewer p) := by
    rw [hg]; rfl
  exact ⟨_, hp0, survivors_eq_kept us k h2 _ hp0, keptOf_max hp0⟩

/-- Witness for C3: two update rows keyed alike with timestamps
1 < 2; the deduplicated dataset retains only the timestamp-2 row. -/
theorem C3_witness :
    (∃ p, keptOf (keyMatches usC3 (Value.str "k")) = some p ∧
      (handle_duplicates usC3).filter
        (fun r => valEqB (getCol r FULL_NAME_KEY) (Value.str "k")) = [p.2] ∧
      ∀ q ∈ keyMatches usC3 (Value.str "k"),
        tsLtB (tsOf p.2) (tsOf q.2) = false) ∧
    handle_duplicates usC3 =
      [[(FULL_NAME_KEY, .str "k"), (UPDATE_TIMESTAMP, .dateV 2), ("z", .str "B")]] :=
  ⟨C3_latest_wins usC3 (Value.str "k") (by decide), by decide⟩

/-- Claim C5: a matched pair whose reconciliation touched the record
increments the updated-row counter by exactly one — however many
fields changed — and writes the update's timestamp into the
designated update-timestamp column exactly when that timestamp is
present (when absent, no timestamp cell is written). -/
theorem C5_touched_counts_once (st : MergerState) (i j : Nat)
    (mrow urow m' : Record) (fs : List String)
    (hm : keyMatches st.master (getCol urow FULL_NAME_KEY) = [(j, mrow)])
    (hr : reconcileRow st mrow urow = (m', true, fs)) :
    processRow st i urow = .ok { st with
      master := st.master.set j
        (if isna (getCol urow UPDATE_TIMESTAMP) then
          setCol m' UPDATED_FLAG (.boolV true)
         else
          setCol (setCol m' UPDATED_FLAG (.boolV true)) MASTER_UPDATED
            (getCol urow UPDATE_TIMESTAMP)),
      updated_rows := st.updated_rows + 1 } := by
  unfold processRow
  rw [hm]
  simp [processMatch, hr]

/-- Witness for C5: one changed address field touches the record,
bumps the counter from 0 to 1, and stamps the timestamp. -/
theorem C5_witness :
    keyMatches stC5.master (getCol urowC5 FULL_NAME_KEY) = [(0, mrowC5)] ∧
    processRow stC5 0 urowC5 = .ok { stC5 with
      master := stC5.master.set 0
        (if isna (getCol urowC5 UPDATE_TIMESTAMP) then
          setCol (setCol mrowC5 MASTER_ADDRESS (.str "b")) UPDATED_FLAG (.boolV true)
         else
          setCol (setCol (setCol mrowC5 MASTER_ADDRESS (.str "b"))
            UPDATED_FLAG (.boolV true)) MASTER_UPDATED
            (getCol urowC5 UPDATE_TIMESTAMP)),
      updated_rows := stC5.updated_rows + 1 } :=
  ⟨by decide,
   C5_touched_counts_once stC5 0 0 mrowC5 urowC5
     (setCol mrowC5 MASTER_ADDRESS (.str "b")) [MASTER_ADDRESS]
     (by decide) (by decide)⟩

/-- Claim C6: an update record matching zero master records is
appended exactly once to the unmatched list, the master dataset and
the updated-row counter are left untouched, and the loop continues
with the next update record instead of aborting. -/
theorem C6_unmatched_recorded (st : MergerState) (i : Nat) (urow : Record)
    (h : keyMatches st.master (getCol urow FULL_NAME_KEY) = []) :
    processRow st i urow = .ok { st with unmatched := st.unmatched ++
      [⟨i, getCol urow UPDATE_FULLNAME, getCol urow FULL_NAME_KEY,
        getCol urow UPDATE_TIMESTAMP⟩] } ∧
    ∀ rs, processLoop st i (urow :: rs) =
      processLoop { st with unmatched := st.unmatched ++
        [⟨i, getCol urow UPDATE_FULLNAME, getCol urow FULL_NAME_KEY,
          getCol urow UPDATE_TIMESTAMP⟩] } (i + 1) rs := by
  have hrow : processRow st i urow = .ok { st with unmatched := st.unmatched ++
      [⟨i, getCol urow UPDATE_FULLNAME, getCol urow FULL_NAME_KEY,
        getCol urow UPDATE_TIMESTAMP⟩] } := by
    unfold processRow
    rw [h]
    rfl
  exact ⟨hrow, fun rs => by rw [processLoop, hrow]⟩

/-- Witness for C6: the key matching nothing is recorded once and the
state is otherwise unchanged. -/
theorem C6_witness :
    keyMatches stC6.master (getCol urowC6 FULL_NAME_KEY) = [] ∧
    processRow stC6 0 urowC6 = .ok { stC6 with unmatched := stC6.unmatched ++
      [⟨0, getCol urowC6 UPDATE_FULLNAME, getCol urowC6 FULL_NAME_KEY,
        getCol urowC6 UPDATE_TIMESTAMP⟩] } :=
  ⟨by decide, (C6_unmatched_recorded stC6 0 urowC6 (by decide)).1⟩

/-- Claim C7: a matched pair in which every present update value
equals the corresponding master value leaves the state exactly as it
was: the record is not marked touched, the counter does not move,
and the master record is unchanged. -/
theorem C7_noop_on_equal (st : MergerState) (i j : Nat) (mrow urow : Record)
    (hm : keyMatches st.master (getCol urow FULL_NAME_KEY) = [(j, mrow)])
    (h1 : ∀ p ∈ field_mappings,
      isna (getCol urow p.1) = false → getCol mrow p.2 = getCol urow p.1)
    (h2 : ∀ c ∈ st.common_columns,
      isna (getCol urow c) = false → getCol mrow c = getCol urow c)
    (h3 : ∀ c ∈ st.extra_columns,
      isna (getCol urow c) = false → getCol mrow c = getCol urow c) :
    processRow st i urow = .ok st := by
  unfold processRow
  rw [hm]
  simp only [processMatch, reconcileRow_noop st mrow urow h1 h2 h3]
  rw [set_of_getElem? st.master j mrow (getElem?_of_keyMatches hm)]
  rfl

/-- Witness for C7: an update that repeats the master's address and
phone values leaves the state untouched. -/
theorem C7_witness :
    keyMatches stC7.master (getCol urowC7 FULL_NAME_KEY) = [(0, mrowC7)] ∧
    processRow stC7 0 urowC7 = .ok stC7 :=
  ⟨by decide,
   C7_noop_on_equal stC7 0 0 mrowC7 urowC7 (by decide) (by decide) (by decide)
     (by decide)⟩

/-- Counterexample to C2 as stated: in `stC2` the master's extra-cell
`x` holds the present value `"old"`, yet processing copies the update
value `"new"` over it — the copy is not guarded by absence of the
master cell — and the record is nonetheless not counted as updated. -/
theorem C2_counterexample :
    stC2.master.map (fun r => getCol r "x") = [Value.str "old"] ∧
    isna (Value.str "old") = false ∧
    (process_updates stC2).toOption.map
      (fun s => s.master.map (fun r => getCol r "x")) = some [Value.str "new"] ∧
    (process_updates stC2).toOption.map MergerState.updated_rows = some 0 :=
  ⟨by decide, rfl, by decide, by decide⟩

/-- Claim C2 (amended): with extra-column inclusion enabled, a
present update value in an extra column is copied into the master
cell unconditionally — even over a present, different master value —
and the copy never changes the updated flag or the changed-field
list, because the absence test runs after the write and therefore
always sees the value just written. -/
theorem C2_extra_copy_unconditional (urow m : Record) (u : Bool)
    (fs : List String) (c : String)
    (hv : isna (getCol urow c) = false) :
    stepExtra urow (m, u, fs) c = (setCol m c (getCol urow c), u, fs) := by
  have hg2 : isna (getCol (setCol m c (getCol urow c)) c) = false := by
    rw [getCol_setCol_self]; exact hv
  simp [stepExtra, hv, hg2]

/-- Witness for the amended C2: a present update value overwrites the
present master value `"old"` and leaves flag and field list alone. -/
theorem C2_witness :
    isna (getCol [(FULL_NAME_KEY, Value.str "k"), ("x", Value.str "new")] "x") = false ∧
    stepExtra [(FULL_NAME_KEY, Value.str "k"), ("x", Value.str "new")]
      ([(FULL_NAME_KEY, Value.str "k"), ("x", Value.str "old")], false, []) "x" =
      (setCol [(FULL_NAME_KEY, Value.str "k"), ("x", Value.str "old")] "x"
        (getCol [(FULL_NAME_KEY, Value.str "k"), ("x", Value.str "new")] "x"),
       false, []) :=
  ⟨by decide,
   C2_extra_copy_unconditional [(FULL_NAME_KEY, Value.str "k"), ("x", Value.str "new")]
     [(FULL_NAME_KEY, Value.str "k"), ("x", Value.str "old")] false [] "x" (by decide)⟩

/-- Counterexample to C9 as stated: the numeric postal value 123456
is rewritten to the 6-character string `"123456"`, not to a fixed
5-character string. -/
theorem C9_counterexample :
    format_postal_code (Value.intV 123456) = Value.str "123456" ∧
    ("123456" : String).length ≠ 5 :=
  ⟨by decide, by decide⟩

/-- Claim C9 (amended): a numeric postal value is rewritten to its
decimal string left-padded with zeros to a width of at least 5 (so a
value with more than five digits keeps all of them); digit strings
are likewise zero-padded; non-digit strings and absent values pass
through unchanged. -/
theorem C9_postal_padding (n : Int) (s t : String)
    (hs : pyIsDigit s = true) (ht : pyIsDigit t = false) :
    format_postal_code (.intV n) = .str (zfill (toString n) 5) ∧
    (zfill (toString n) 5).length = max (toString n).length 5 ∧
    format_postal_code (.str s) = .str (zfill s 5) ∧
    (zfill s 5).length = max s.length 5 ∧
    format_postal_code (.str t) = .str t ∧
    format_postal_code .na = .na :=
  ⟨rfl, zfill_length _ _, by simp [format_postal_code, hs], zfill_length _ _,
   by simp [format_postal_code, ht], rfl⟩

/-- Witness for the amended C9 at the postal code 340, the digit
string 12, and the non-digit string abc. -/
theorem C9_witness :
    format_postal_code (.intV 340) = .str (zfill (toString (340 : Int)) 5) ∧
    (zfill (toString (340 : Int)) 5).length = max (toString (340 : Int)).length 5 ∧
    format_postal_code (.str "12") = .str (zfill "12" 5) ∧
    (zfill "12" 5).length = max ("12" : String).length 5 ∧
    format_postal_code (.str "abc") = .str "abc" ∧
    format_postal_code .na = .na :=
  C9_postal_padding 340 "12" "abc" (by decide) (by decide)

/-- A touched row keeps its (coerced) primary timestamp through
`handle_timestamps` and is never back-filled from the legacy
column. -/
theorem fixRowTs_touched (r : Record) (b : Bool) (hb : isTouched r = true) :
    getCol (fixRowTs b r) MASTER_UPDATED = toDT (getCol r MASTER_UPDATED) := by
  have hne1 : MASTER_UPDATED ≠ UPDATED_FLAG := by decide
  have hne2 : MASTER_UPDATED_2 ≠ UPDATED_FLAG := by decide
  have hne3 : MASTER_UPDATED_2 ≠ MASTER_UPDATED := by decide
  cases b with
  | false =>
      simp only [fixRowTs, Bool.false_eq_true, if_false]
      rw [getCol_setCol_self, getCol_setCol_self, toDT_idem]
  | true =>
      simp only [fixRowTs, if_true]
      have hT : isTouched (setCol
          (setCol r MASTER_UPDATED (toDT (getCol r MASTER_UPDATED)))
          MASTER_UPDATED_2
          (toDT (getCol (setCol r MASTER_UPDATED (toDT (getCol r MASTER_UPDATED)))
            MASTER_UPDATED_2))) = true := by
        unfold isTouched
        rw [getCol_setCol_ne _ _ hne2, getCol_setCol_ne _ _ hne1]
        exact hb
      rw [hT]
      simp only [Bool.not_true, Bool.false_and, Bool.false_eq_true, if_false]
      rw [getCol_setCol_self, getCol_setCol_ne _ _ hne3, getCol_setCol_self, toDT_idem]

/-- An untouched row whose primary timestamp coerces to absent gets
the coerced legacy timestamp copied in. -/
theorem fixRowTs_untouched (r : Record) (hb : isTouched r = false)
    (hmu : toDT (getCol r MASTER_UPDATED) = .na) :
    getCol (fixRowTs true r) MASTER_UPDATED = toDT (getCol r MASTER_UPDATED_2) := by
  have hne1 : MASTER_UPDATED ≠ UPDATED_FLAG := by decide
  have hne2 : MASTER_UPDATED_2 ≠ UPDATED_FLAG := by decide
  have hne3 : MASTER_UPDATED_2 ≠ MASTER_UPDATED := by decide
  have hne4 : MASTER_UPDATED ≠ MASTER_UPDATED_2 := by decide
  simp only [fixRowTs, if_true]
  set r1 := setCol r MASTER_UPDATED (toDT (getCol r MASTER_UPDATED)) with hr1
  set r2 := setCol r1 MASTER_UPDATED_2 (toDT (getCol r1 MASTER_UPDATED_2)) with hr2
  have hT : isTouched r2 = false := by
    unfold isTouched
    rw [hr2, hr1, getCol_setCol_ne _ _ hne2, getCol_setCol_ne _ _ hne1]
    exact hb
  have hMU : isna (getCol r2 MASTER_UPDATED) = true := by
    rw [hr2, getCol_setCol_ne _ _ hne3, hr1, getCol_setCol_self, hmu]
    rfl
  rw [hT, hMU]
  simp only [Bool.not_false, Bool.true_and, if_true]
  rw [getCol_setCol_self, getCol_setCol_self]
  rw [hr2, getCol_setCol_self, hr1, getCol_setCol_ne _ _ hne4, toDT_idem]

/-- Claim C8: after reconciliation, an untouched master record whose
primary timestamp is absent receives the legacy secondary timestamp
(when that column exists), while a touched record keeps the
timestamp written by reconciliation and is never back-filled. -/
theorem C8_backfill (st : MergerState) (j : Nat) (r : Record)
    (hj : st.master[j]? = some r) :
    (handle_timestamps st).master[j]? =
      some (fixRowTs (decide (MASTER_UPDATED_2 ∈ st.master_cols)) r) ∧
    (∀ b, isTouched r = true →
      getCol (fixRowTs b r) MASTER_UPDATED = toDT (getCol r MASTER_UPDATED)) ∧
    (isTouched r = false → toDT (getCol r MASTER_UPDATED) = .na →
      getCol (fixRowTs true r) MASTER_UPDATED = toDT (getCol r MASTER_UPDATED_2)) := by
  refine ⟨?_, fun b hb => fixRowTs_touched r b hb,
    fun hb hmu => fixRowTs_untouched r hb hmu⟩
  simp [handle_timestamps, List.getElem?_map, hj]

/-- Witness for C8: the untouched row of `stC8` has an absent
primary timestamp; `handle_timestamps` fills it with the legacy
value. -/
theorem C8_witness :
    stC8.master[0]? = some rowC8 ∧
    getCol (fixRowTs true rowC8) MASTER_UPDATED =
      toDT (getCol rowC8 MASTER_UPDATED_2) :=
  ⟨by decide, (C8_backfill stC8 0 rowC8 (by decide)).2.2 (by decide) (by decide)⟩

/-- Claim C10: `clean_data` rewrites values on every master record —
the `Updated` flag plays no role — title-casing the first- and
last-name cells and normalizing string phone values (dashes and
spaces removed, a leading international prefix `+358` replaced by
`0`); hence an untouched record whose stored values are not already
in canonical form is modified in the output. -/
theorem C10_cleanup (st : MergerState) (j : Nat) (r : Record) (s : String)
    (hj : st.master[j]? = some r) :
    (clean_data st).master[j]? = some (renameCaps (dropColsR
      (cleanCells (decide (MASTER_PHONE ∈ st.master_cols))
        (decide (MASTER_POSTAL_CODE ∈ st.master_cols)) r) (cleanDropList st))) ∧
    (∀ hp hz : Bool,
      getCol (cleanCells hp hz r) MASTER_FIRSTNAME
        = proper_case (getCol r MASTER_FIRSTNAME) ∧
      getCol (cleanCells hp hz r) MASTER_LASTNAME
        = proper_case (getCol r MASTER_LASTNAME) ∧
      (hp = true → getCol (cleanCells hp hz r) MASTER_PHONE
        = normalize_phone (getCol r MASTER_PHONE))) ∧
    ('-' ∉ (stripDashSpace (pyStrip s)).data ∧
      ' ' ∉ (stripDashSpace (pyStrip s)).data) ∧
    (pyStartsWith (stripDashSpace (pyStrip s)) "+358" = true →
      normalize_phone (.str s) = .str ("0" ++ pyDrop (stripDashSpace (pyStrip s)) 4)) ∧
    (pyStartsWith (stripDashSpace (pyStrip s)) "+358" = false →
      normalize_phone (.str s) = .str (stripDashSpace (pyStrip s))) := by
  have eLF : ∀ (rr : Record) v,
      getCol (setCol rr MASTER_LASTNAME v) MASTER_FIRSTNAME
        = getCol rr MASTER_FIRSTNAME := fun rr v => getCol_setCol_ne rr v (by decide)
  have ePF : ∀ (rr : Record) v,
      getCol (setCol rr MASTER_PHONE v) MASTER_FIRSTNAME
        = getCol rr MASTER_FIRSTNAME := fun rr v => getCol_setCol_ne rr v (by decide)
  have eZF : ∀ (rr : Record) v,
      getCol (setCol rr MASTER_POSTAL_CODE v) MASTER_FIRSTNAME
        = getCol rr MASTER_FIRSTNAME := fun rr v => getCol_setCol_ne rr v (by decide)
  have ePL : ∀ (rr : Record) v,
      getCol (setCol rr MASTER_PHONE v) MASTER_LASTNAME
        = getCol rr MASTER_LASTNAME := fun rr v => getCol_setCol_ne rr v (by decide)
  have eZL : ∀ (rr : Record) v,
      getCol (setCol rr MASTER_POSTAL_CODE v) MASTER_LASTNAME
        = getCol rr MASTER_LASTNAME := fun rr v => getCol_setCol_ne rr v (by decide)
  have eZP : ∀ (rr : Record) v,
      getCol (setCol rr MASTER_POSTAL_CODE v) MASTER_PHONE
        = getCol rr MASTER_PHONE := fun rr v => getCol_setCol_ne rr v (by decide)
  have eFL : ∀ (rr : Record) v,
      getCol (setCol rr MASTER_FIRSTNAME v) MASTER_LASTNAME
        = getCol rr MASTER_LASTNAME := fun rr v => getCol_setCol_ne rr v (by decide)
  have eFP : ∀ (rr : Record) v,
      getCol (setCol rr MASTER_FIRSTNAME v) MASTER_PHONE
        = getCol rr MASTER_PHONE := fun rr v => getCol_setCol_ne rr v (by decide)
  have eLP : ∀ (rr : Record) v,
      getCol (setCol rr MASTER_LASTNAME v) MASTER_PHONE
        = getCol rr MASTER_PHONE := fun rr v => getCol_setCol_ne rr v (by decide)
  refine ⟨?_, ?_, ?_, ?_, ?_⟩
  · simp [clean_data, List.getElem?_map, hj]
  · intro hp hz
    refine ⟨?_, ?_, ?_⟩
    · cases hp <;> cases hz <;>
        simp [cleanCells, getCol_setCol_self, eLF, ePF, eZF]
    · cases hp <;> cases hz <;>
        simp [cleanCells, getCol_setCol_self, eFL, ePL, eZL]
    · intro hptrue
      subst hptrue
      cases hz <;>
        simp [cleanCells, getCol_setCol_self, eFP, eLP, eZP]
  · constructor <;> simp [stripDashSpace, List.mem_filter]
  · intro h
    simp [normalize_phone, h]
  · intro h
    simp [normalize_phone, h]

/-! ### Preservation of master keys across the update loop -/

theorem length_filter_enumFrom {α : Type} (q : α → Bool) :
    ∀ (l : List α) (n : Nat),
    ((List.enumFrom n l).filter (fun p => q p.2)).length = (l.filter q).length := by
  intro l
  induction l with
  | nil => intro n; rfl
  | cons a t ih =>
      intro n
      simp only [List.enumFrom]
      by_cases h : q a = true
      · rw [List.filter_cons_of_pos (by simpa using h), List.filter_cons_of_pos h]
        simp [ih]
      · rw [List.filter_cons_of_neg (by simpa using h), List.filter_cons_of_neg h]
        exact ih (n + 1)

theorem keyMatches_length (rs : List Record) (k : Value) :
    (keyMatches rs k).length
      = (rs.filter (fun r => valEqB (getCol r FULL_NAME_KEY) k)).length := by
  unfold keyMatches
  rw [show rs.enum = List.enumFrom 0 rs from rfl]
  exact length_filter_enumFrom (fun r => valEqB (getCol r FULL_NAME_KEY) k) rs 0

theorem length_filter_map_eq {α : Type} (f : α → Value) (q : Value → Bool) :
    ∀ (l1 l2 : List α), l1.map f = l2.map f →
    (l1.filter (fun x => q (f x))).length = (l2.filter (fun x => q (f x))).length := by
  intro l1
  induction l1 with
  | nil =>
      intro l2 h
      cases l2 with
      | nil => rfl
      | cons b t => simp at h
  | cons a t ih =>
      intro l2 h
      cases l2 with
      | nil => simp at h
      | cons b t2 =>
          simp only [List.map_cons, List.cons.injEq] at h
          obtain ⟨hab, ht⟩ := h
          rw [List.filter_cons, List.filter_cons, hab]
          by_cases hq : q (f b) = true
          · simp [hq, ih t2 ht]
          · simp [hq, ih t2 ht]

theorem keyMatches_length_congr {m1 m2 : List Record}
    (h : m1.map (fun r => getCol r FULL_NAME_KEY)
       = m2.map (fun r => getCol r FULL_NAME_KEY)) (k : Value) :
    (keyMatches m1 k).length = (keyMatches m2 k).length := by
  rw [keyMatches_length, keyMatches_length]
  exact length_filter_map_eq (fun r => getCol r FULL_NAME_KEY)
    (fun v => valEqB v k) m1 m2 h

theorem stepMapping_keeps (urow : Record) (acc : Record × Bool × List String)
    (p : String × String) (hp : p.2 ≠ FULL_NAME_KEY) :
    getCol (stepMapping urow acc p).1 FULL_NAME_KEY
      = getCol acc.1 FULL_NAME_KEY := by
  simp only [stepMapping]
  split
  · split
    · exact getCol_setCol_ne _ _ hp
    · rfl
  · rfl

theorem foldl_stepMapping_keeps (urow : Record) :
    ∀ (ms : List (String × String)) (acc : Record × Bool × List String),
    (∀ p ∈ ms, p.2 ≠ FULL_NAME_KEY) →
    getCol (ms.foldl (stepMapping urow) acc).1 FULL_NAME_KEY
      = getCol acc.1 FULL_NAME_KEY := by
  intro ms
  induction ms with
  | nil => intro acc _; rfl
  | cons p ms ih =>
      intro acc h
      rw [List.foldl_cons, ih _ (fun q hq => h q (List.mem_cons_of_mem _ hq))]
      exact stepMapping_keeps urow acc p (h p (List.mem_cons_self _ _))

theorem stepCommon_keeps (urow : Record) (acc : Record × Bool × List String)
    (c : String) :
    getCol (stepCommon urow acc c).1 FULL_NAME_KEY
      = getCol acc.1 FULL_NAME_KEY := by
  simp only [stepCommon]
  by_cases h1 : c ∈ skipCols
  · rw [if_pos h1]
  · rw [if_neg h1]
    by_cases h2 : c ∈ mappingKeys ∨ c ∈ mappingVals
    · rw [if_pos h2]
    · rw [if_neg h2]
      have hc : c ≠ FULL_NAME_KEY := fun hh => h1 (by rw [hh]; decide)
      split
      · exact getCol_setCol_ne _ _ hc
      · rfl

theorem foldl_stepCommon_keeps (urow : Record) :
    ∀ (cols : List String) (acc : Record × Bool × List String),
    getCol (cols.foldl (stepCommon urow) acc).1 FULL_NAME_KEY
      = getCol acc.1 FULL_NAME_KEY := by
  intro cols
  induction cols with
  | nil => intro acc; rfl
  | cons c cols ih =>
      intro acc
      rw [List.foldl_cons, ih]
      exact stepCommon_keeps urow acc c

theorem stepExtra_keeps (urow : Record) (acc : Record × Bool × List String)
    (c : String) (hc : c ≠ FULL_NAME_KEY) :
    getCol (stepExtra urow acc c).1 FULL_NAME_KEY
      = getCol acc.1 FULL_NAME_KEY := by
  simp only [stepExtra]
  split
  · split
    · exact getCol_setCol_ne _ _ hc
    · exact getCol_setCol_ne _ _ hc
  · rfl

theorem foldl_stepExtra_keeps (urow : Record) :
    ∀ (cols : List String) (acc : Record × Bool × List String),
    (∀ c ∈ cols, c ≠ FULL_NAME_KEY) →
    getCol (cols.foldl (stepExtra urow) acc).1 FULL_NAME_KEY
      = getCol acc.1 FULL_NAME_KEY := by
  intro cols
  induction cols with
  | nil => intro acc _; rfl
  | cons c cols ih =>
      intro acc h
      rw [List.foldl_cons, ih _ (fun q hq => h q (List.mem_cons_of_mem _ hq))]
      exact stepExtra_keeps urow acc c (h c (List.mem_cons_self _ _))

theorem reconcileRow_keeps (st : MergerState) (mrow urow : Record)
    (hx : FULL_NAME_KEY ∉ st.extra_columns) :
    getCol (reconcileRow st mrow urow).1 FULL_NAME_KEY
      = getCol mrow FULL_NAME_KEY := by
  have hmap : ∀ p ∈ field_mappings, p.2 ≠ FULL_NAME_KEY := by decide
  have hext : ∀ c ∈ st.extra_columns, c ≠ FULL_NAME_KEY :=
    fun c hcmem hh => hx (hh ▸ hcmem)
  simp only [reconcileRow]
  by_cases hic : st.include_extra_columns = true
  · rw [if_pos hic, foldl_stepExtra_keeps urow _ _ hext,
      foldl_stepCommon_keeps urow _ _, foldl_stepMapping_keeps urow _ _ hmap]
  · rw [if_neg hic, foldl_stepCommon_keeps urow _ _,
      foldl_stepMapping_keeps urow _ _ hmap]

theorem written_key (res1 : Record) (ts : Value) :
    getCol (if isna ts then setCol res1 UPDATED_FLAG (.boolV true)
      else setCol (setCol res1 UPDATED_FLAG (.boolV true)) MASTER_UPDATED ts)
      FULL_NAME_KEY = getCol res1 FULL_NAME_KEY := by
  by_cases h : isna ts = true
  · rw [if_pos h, getCol_setCol_ne _ _ (by decide)]
  · rw [if_neg h, getCol_setCol_ne _ _ (by decide), getCol_setCol_ne _ _ (by decide)]

theorem processMatch_single (st : MergerState) (i : Nat)
    (urow mrow : Record) (j : Nat) :
    processMatch st i urow [(j, mrow)] =
      if (reconcileRow st mrow urow).2.1 then
        .ok { st with
          master := st.master.set j
            (if isna (getCol urow UPDATE_TIMESTAMP) then
              setCol (reconcileRow st mrow urow).1 UPDATED_FLAG (.boolV true)
             else
              setCol (setCol (reconcileRow st mrow urow).1 UPDATED_FLAG (.boolV true))
                MASTER_UPDATED (getCol urow UPDATE_TIMESTAMP)),
          updated_rows := st.updated_rows + 1 }
      else .ok { st with master := st.master.set j (reconcileRow st mrow urow).1 } :=
  rfl

theorem processRow_ok_keeps (st : MergerState) (i : Nat) (urow : Record)
    (hx : FULL_NAME_KEY ∉ st.extra_columns)
    (hle : (keyMatches st.master (getCol urow FULL_NAME_KEY)).length ≤ 1) :
    ∃ st', processRow st i urow = .ok st' ∧
      st'.master.map (fun r => getCol r FULL_NAME_KEY)
        = st.master.map (fun r => getCol r FULL_NAME_KEY) ∧
      st'.extra_columns = st.extra_columns := by
  unfold processRow
  cases hm : keyMatches st.master (getCol urow FULL_NAME_KEY) with
  | nil => exact ⟨_, rfl, rfl, rfl⟩
  | cons p t =>
      cases t with
      | cons q t2 =>
          rw [hm] at hle
          simp at hle
      | nil =>
          obtain ⟨j, mrow⟩ := p
          have hget : st.master[j]? = some mrow := getElem?_of_keyMatches hm
          have hkeep := reconcileRow_keeps st mrow urow hx
          have hmapkey : ∀ w : Record,
              getCol w FULL_NAME_KEY = getCol mrow FULL_NAME_KEY →
              (st.master.set j w).map (fun r => getCol r FULL_NAME_KEY)
                = st.master.map (fun r => getCol r FULL_NAME_KEY) := by
            intro w hw
            rw [List.map_set]
            apply set_of_getElem?
            rw [List.getElem?_map, hget]
            simp [hw]
          rw [processMatch_single]
          by_cases hres : (reconcileRow st mrow urow).2.1 = true
          · rw [if_pos hres]
            refine ⟨{ st with
                master := st.master.set j
                  (if isna (getCol urow UPDATE_TIMESTAMP) then
                    setCol (reconcileRow st mrow urow).1 UPDATED_FLAG (.boolV true)
                   else
                    setCol (setCol (reconcileRow st mrow urow).1 UPDATED_FLAG
                      (.boolV true)) MASTER_UPDATED (getCol urow UPDATE_TIMESTAMP)),
                updated_rows := st.updated_rows + 1 }, rfl, ?_, rfl⟩
            apply hmapkey
            rw [written_key]
            exact hkeep
          · rw [if_neg hres]
            refine ⟨{ st with
                master := st.master.set j (reconcileRow st mrow urow).1 },
              rfl, ?_, rfl⟩
            exact hmapkey _ hkeep

theorem processLoop_ambig : ∀ (rs : List Record) (st : MergerState) (i : Nat),
    FULL_NAME_KEY ∉ st.extra_columns →
    (∃ r ∈ rs, 1 < (keyMatches st.master (getCol r FULL_NAME_KEY)).length) →
    ∃ j k, processLoop st i rs = .error (.ambiguousKey j k) ∧
      1 < (keyMatches st.master k).length := by
  intro rs
  induction rs with
  | nil =>
      rintro st i hx ⟨r, hr, _⟩
      simp at hr
  | cons r rs ih =>
      intro st i hx hex
      by_cases hlen : 1 < (keyMatches st.master (getCol r FULL_NAME_KEY)).length
      · obtain ⟨j0, m0, q, t2, hm⟩ : ∃ j0 m0 q t2,
            keyMatches st.master (getCol r FULL_NAME_KEY) = (j0, m0) :: q :: t2 := by
          cases hmm : keyMatches st.master (getCol r FULL_NAME_KEY) with
          | nil => rw [hmm] at hlen; simp at hlen
          | cons p t =>
              cases t with
              | nil => rw [hmm] at hlen; simp at hlen
              | cons q t2 =>
                  obtain ⟨ja, ma⟩ := p
                  exact ⟨ja, ma, q, t2, rfl⟩
        refine ⟨i, getCol r FULL_NAME_KEY, ?_, hlen⟩
        have hrow : processRow st i r
            = .error (.ambiguousKey i (getCol r FULL_NAME_KEY)) := by
          unfold processRow
          rw [hm]
          rfl
        rw [processLoop, hrow]
      · have hle : (keyMatches st.master (getCol r FULL_NAME_KEY)).length ≤ 1 := by
          omega
        obtain ⟨st', hok, hkeys, hext⟩ := processRow_ok_keeps st i r hx hle
        obtain ⟨r', hr', hlen'⟩ := hex
        have hr'tail : r' ∈ rs := by
          rcases List.mem_cons.1 hr' with h | h
          · subst h; exact absurd hlen' hlen
          · exact h
        have hx' : FULL_NAME_KEY ∉ st'.extra_columns := by
          rw [hext]; exact hx
        have hlen'' : 1 < (keyMatches st'.master (getCol r' FULL_NAME_KEY)).length := by
          rw [keyMatches_length_congr hkeys]
          exact hlen'
        obtain ⟨j, k, herr, hk⟩ := ih st' (i + 1) hx' ⟨r', hr'tail, hlen''⟩
        refine ⟨j, k, ?_, ?_⟩
        · rw [processLoop, hok]
          exact herr
        · rw [← keyMatches_length_congr hkeys]
          exact hk

theorem initFlags_keys (m : List Record) :
    (initFlags m).map (fun r => getCol r FULL_NAME_KEY)
      = m.map (fun r => getCol r FULL_NAME_KEY) := by
  unfold initFlags
  rw [List.map_map]
  apply List.map_congr_left
  intro r _
  exact getCol_setCol_ne _ _ (by decide)

/-- Claim C1: if any update record in the deduplicated dataset keys
more than one master record, the run aborts with the dedicated
ambiguous-master-key error (carrying the offending row index and the
key), and the pipeline never reaches the save step: `run` yields
`.error`, so no output dataset is produced. -/
theorem C1_ambiguous_aborts (st : MergerState)
    (hx : FULL_NAME_KEY ∉ st.extra_columns)
    (h : ∃ r ∈ handle_duplicates st.updates,
      1 < (keyMatches st.master (getCol r FULL_NAME_KEY)).length) :
    ∃ j k, run st = .error (.ambiguousKey j k) ∧
      1 < (keyMatches st.master k).length := by
  obtain ⟨r, hr, hlen⟩ := h
  have hkeys : (initState (dedupState st)).master.map
        (fun r => getCol r FULL_NAME_KEY)
      = st.master.map (fun r => getCol r FULL_NAME_KEY) := initFlags_keys st.master
  have hx2 : FULL_NAME_KEY ∉ (initState (dedupState st)).extra_columns := hx
  have hlen2 :
      1 < (keyMatches (initState (dedupState st)).master
        (getCol r FULL_NAME_KEY)).length := by
    rw [keyMatches_length_congr hkeys]
    exact hlen
  obtain ⟨j, k, herr, hk⟩ := processLoop_ambig (handle_duplicates st.updates)
    (initState (dedupState st)) 0 hx2 ⟨r, hr, hlen2⟩
  have hpu : process_updates (dedupState st) = .error (.ambiguousKey j k) := herr
  refine ⟨j, k, ?_, ?_⟩
  · unfold run
    rw [hpu]
  · rw [← keyMatches_length_congr hkeys]
    exact hk

/-- Witness for C1: with two master rows keyed alike, the run aborts
with the ambiguous-key error before any output is produced. -/
theorem C1_witness :
    ∃ j k, run stC1 = .error (.ambiguousKey j k) ∧
      1 < (keyMatches stC1.master k).length :=
  C1_ambiguous_aborts stC1 (by decide)
    ⟨[(FULL_NAME_KEY, .str "anna korhonen"), (UPDATE_TIMESTAMP, .dateV 3),
      (UPDATE_ADDRESS, .str "b")], by decide, by decide⟩

/-- Witness for C10: the untouched row of `stC10` comes out with its
first name title-cased and its phone number normalized. -/
theorem C10_witness :
    stC10.master[0]? = some rowC10 ∧
    isTouched rowC10 = false ∧
    getCol (cleanCells true true rowC10) MASTER_FIRSTNAME = Value.str "Anna" ∧
    getCol (cleanCells true true rowC10) MASTER_PHONE = Value.str "0401234567" ∧
    (clean_data stC10).master[0]? = some (renameCaps (dropColsR
      (cleanCells (decide (MASTER_PHONE ∈ stC10.master_cols))
        (decide (MASTER_POSTAL_CODE ∈ stC10.master_cols)) rowC10)
      (cleanDropList stC10))) :=
  ⟨by decide, by decide, by decide, by decide,
   (C10_cleanup stC10 0 rowC10 "x" (by decide)).1⟩

end ExcelMerge
